import Mathlib

/-!
# Verification of the Jugaad form validator

A shallow embedding of `src/11-jugaad-form-validator.js` (`validateForm`).

Modelling choices:
* JS numbers are modelled as `JSNumber`: `nan`, the two infinities, or a
  finite value given by an exact rational.  The claims under study concern
  NaN-ness, integrality (`Number.isInteger`) and the range `[16,100]`, none
  of which depend on binary-float rounding.
* JS strings are modelled as `List Char` (sequences of Unicode scalar
  values); the characters appearing in the validator's checks are ASCII.
* A field of the input record is a `FieldValue`: absent fields read as
  `undefined`; `object` and `array` stand for any non-null object or array
  value (all field checks only ever test `typeof v === "string"`,
  `typeof v === "number"` and truthiness, for which every such value
  behaves alike).
* The argument of `validateForm` is a `JSArg`: either a record (a bag of
  seven field values — additional keys of a JS object are never read) or a
  non-record value (`undefined`, `null`, boolean, number, string, array or
  function), which the guard at the top of the function rejects.
* The `errors` object is an insertion-ordered association list
  `List (String × String)`; keys are pairwise distinct by construction, so
  `Object.keys(errors).length` is its length.
-/

/-- A JavaScript number: NaN, ±Infinity, or a finite value (exact rational). -/
inductive JSNumber where
  | nan : JSNumber
  | posInf : JSNumber
  | negInf : JSNumber
  | finite (q : ℚ) : JSNumber
deriving DecidableEq

/-- A JavaScript value stored in a field of the form record. -/
inductive FieldValue where
  | undefined : FieldValue
  | null : FieldValue
  | bool (b : Bool) : FieldValue
  | num (n : JSNumber) : FieldValue
  | str (s : List Char) : FieldValue
  | object : FieldValue
  | array : FieldValue
deriving DecidableEq

/-- The form record: the seven fields `validateForm` reads.  An absent key
reads as `undefined`. -/
structure FormData where
  name : FieldValue
  email : FieldValue
  phone : FieldValue
  age : FieldValue
  pincode : FieldValue
  state : FieldValue
  agreeTerms : FieldValue
deriving DecidableEq

/-- A JavaScript value passed as the argument of `validateForm`: a record
(non-null, non-array object) or any non-record value. -/
inductive JSArg where
  | undefined : JSArg
  | null : JSArg
  | bool (b : Bool) : JSArg
  | num (n : JSNumber) : JSArg
  | str (s : List Char) : JSArg
  | array : JSArg
  | func : JSArg
  | record (f : FormData) : JSArg
deriving DecidableEq

/-- The result `{ isValid, errors }` of `validateForm`. -/
structure ValidationResult where
  isValid : Bool
  errors : List (String × String)
deriving DecidableEq

/-! ## Character helpers and JS string trimming -/

/-- `'0' ≤ c ≤ '9'`. -/
def isAsciiDigit (c : Char) : Bool :=
  decide ('0' ≤ c ∧ c ≤ '9')

/-- The white-space and line-terminator characters trimmed by JS
`String.prototype.trim` and by string-to-number conversion. -/
def isJsWhitespace (c : Char) : Bool :=
  decide (c = ' ' ∨ c = '\t' ∨ c = '\n' ∨ c = '\x0b' ∨ c = '\x0c' ∨ c = '\r' ∨
    c = '\xa0' ∨ c = ' ' ∨ (0x2000 ≤ c.toNat ∧ c.toNat ≤ 0x200a) ∨
    c = ' ' ∨ c = ' ' ∨ c = ' ' ∨ c = ' ' ∨ c = '　' ∨
    c = '﻿')

/-- JS `s.trim()`: strip leading and trailing white space. -/
def jsTrim (s : List Char) : List Char :=
  ((s.dropWhile isJsWhitespace).reverse.dropWhile isJsWhitespace).reverse

/-! ## JS string-to-number conversion (`Number(string)`)

Follows the ECMAScript `StringNumericLiteral` grammar: surrounding white
space is trimmed, the empty remainder means `0`, and otherwise the whole
remainder must be a signed decimal literal (possibly `Infinity`, with
optional fraction and exponent) or an unsigned `0x`/`0o`/`0b` literal. -/

/-- Value of a decimal digit string, most significant first. -/
def decDigitsVal (ds : List Char) : Nat :=
  ds.foldl (fun a c => a * 10 + (c.toNat - ('0').toNat)) 0

/-- Value of a hexadecimal digit, if any. -/
def hexDigitVal (c : Char) : Option Nat :=
  if '0' ≤ c ∧ c ≤ '9' then some (c.toNat - ('0').toNat)
  else if 'a' ≤ c ∧ c ≤ 'f' then some (c.toNat - ('a').toNat + 10)
  else if 'A' ≤ c ∧ c ≤ 'F' then some (c.toNat - ('A').toNat + 10)
  else none

/-- Value of a digit in the given radix (2, 8 or 16), if valid. -/
def radixDigitVal (radix : Nat) (c : Char) : Option Nat :=
  (hexDigitVal c).bind fun v => if v < radix then some v else none

/-- Value of a non-empty digit string in the given radix; `none` when empty
or when any character is not a digit of that radix. -/
def parseRadixNat (radix : Nat) (ds : List Char) : Option Nat :=
  match ds with
  | [] => none
  | _ =>
    ds.foldl (fun acc c => acc.bind fun a =>
      (radixDigitVal radix c).map fun v => a * radix + v) (some 0)

/-- `10 ^ e` as a rational, for an integer exponent. -/
def qPow10 (e : Int) : ℚ :=
  match e with
  | .ofNat n => (10 : ℚ) ^ n
  | .negSucc n => 1 / (10 : ℚ) ^ (n + 1)

/-- Parse an exponent part.  The empty list means the exponent part is
absent (exponent 0); otherwise the whole list must be `e`/`E`, an optional
sign, and at least one decimal digit. -/
def parseExpPart (s : List Char) : Option Int :=
  match s with
  | [] => some 0
  | c :: rest =>
    if c = 'e' ∨ c = 'E' then
      match rest with
      | '+' :: ds =>
        if ds ≠ [] ∧ ds.all isAsciiDigit then some (decDigitsVal ds) else none
      | '-' :: ds =>
        if ds ≠ [] ∧ ds.all isAsciiDigit then some (-(decDigitsVal ds : Int))
        else none
      | ds =>
        if ds ≠ [] ∧ ds.all isAsciiDigit then some (decDigitsVal ds) else none
    else none

/-- Parse a whole unsigned decimal literal (digits, optional `.` fraction,
optional exponent; `Infinity` is handled by the caller).  `none` when the
list is not entirely such a literal. -/
def parseDecBody (s : List Char) : Option ℚ :=
  let ip := s.takeWhile isAsciiDigit
  let rest1 := s.dropWhile isAsciiDigit
  match rest1 with
  | '.' :: rest2 =>
    let fp := rest2.takeWhile isAsciiDigit
    let rest3 := rest2.dropWhile isAsciiDigit
    if ip = [] ∧ fp = [] then none
    else
      (parseExpPart rest3).map fun e =>
        ((decDigitsVal ip : ℚ) + (decDigitsVal fp : ℚ) / (10 : ℚ) ^ fp.length) *
          qPow10 e
  | _ =>
    if ip = [] then none
    else (parseExpPart rest1).map fun e => (decDigitsVal ip : ℚ) * qPow10 e

/-- Parse the body of a signed decimal literal (the sign already removed):
`Infinity` or a decimal literal; anything else is NaN. -/
def parseUnsignedTail (body : List Char) (neg : Bool) : JSNumber :=
  if body = ("Infinity").toList then (if neg then .negInf else .posInf)
  else
    match parseDecBody body with
    | some q => .finite (if neg then -q else q)
    | none => .nan

/-- Parse a signed decimal literal. -/
def parseSignedDec (t : List Char) : JSNumber :=
  match t with
  | '+' :: r => parseUnsignedTail r false
  | '-' :: r => parseUnsignedTail r true
  | r => parseUnsignedTail r false

/-- Parse an already-trimmed string as a JS numeric literal: empty means 0;
`0x`/`0o`/`0b` literals are unsigned; otherwise a signed decimal literal. -/
def parseTrimmed (t : List Char) : JSNumber :=
  match t with
  | [] => .finite 0
  | '0' :: c :: rest =>
    if c = 'x' ∨ c = 'X' then
      match parseRadixNat 16 rest with
      | some n => .finite (n : ℚ)
      | none => .nan
    else if c = 'o' ∨ c = 'O' then
      match parseRadixNat 8 rest with
      | some n => .finite (n : ℚ)
      | none => .nan
    else if c = 'b' ∨ c = 'B' then
      match parseRadixNat 2 rest with
      | some n => .finite (n : ℚ)
      | none => .nan
    else parseSignedDec ('0' :: c :: rest)
  | t => parseSignedDec t

/-- JS `Number(s)` for a string `s`. -/
def strToNumber (s : List Char) : JSNumber :=
  parseTrimmed (jsTrim s)

/-! ## JS number predicates and truthiness -/

/-- JS `Number.isNaN`. -/
def jsIsNaN (n : JSNumber) : Bool :=
  match n with
  | .nan => true
  | _ => false

/-- JS `Number.isInteger`: finite with integral value. -/
def jsIsInteger (n : JSNumber) : Bool :=
  match n with
  | .finite q => q.den == 1
  | _ => false

/-- JS `n < x` for a number `n` and a finite constant `x` (false for NaN). -/
def jsNumLtQ (n : JSNumber) (x : ℚ) : Bool :=
  match n with
  | .nan => false
  | .posInf => false
  | .negInf => true
  | .finite q => decide (q < x)

/-- JS `n > x` for a number `n` and a finite constant `x` (false for NaN). -/
def jsNumGtQ (n : JSNumber) (x : ℚ) : Bool :=
  match n with
  | .nan => false
  | .posInf => true
  | .negInf => false
  | .finite q => decide (x < q)

/-- JS `Boolean(v)` for a field value. -/
def jsTruthy (v : FieldValue) : Bool :=
  match v with
  | .undefined => false
  | .null => false
  | .bool b => b
  | .num n =>
    match n with
    | .nan => false
    | .finite q => decide (q ≠ 0)
    | _ => true
  | .str s => decide (s ≠ [])
  | .object => true
  | .array => true

/-! ## String searching (JS `indexOf` / `lastIndexOf`) -/

/-- JS `s.indexOf(c)`, with `none` for `-1`. -/
def indexOfChar (s : List Char) (c : Char) : Option Nat :=
  match s with
  | [] => none
  | x :: xs => if x = c then some 0 else (indexOfChar xs c).map (· + 1)

/-- JS `s.lastIndexOf(c)`, with `none` for `-1`. -/
def lastIndexOfChar (s : List Char) (c : Char) : Option Nat :=
  match s with
  | [] => none
  | x :: xs =>
    match lastIndexOfChar xs c with
    | some i => some (i + 1)
    | none => if x = c then some 0 else none

/-- JS `s.indexOf(c, start)`: first index `≥ start` holding `c`. -/
def indexOfCharFrom (s : List Char) (c : Char) (start : Nat) : Option Nat :=
  (indexOfChar (s.drop start) c).map (· + start)

/-- The digit-scanning loop of the phone and pincode checks: true when some
character is outside `'0'..'9'` (the loop breaks at the first one). -/
def anyNonDigit (s : List Char) : Bool :=
  match s with
  | [] => false
  | c :: cs => if c < '0' ∨ '9' < c then true else anyNonDigit cs

/-! ## The seven field checks (each `true` when the field is in error) -/

/-- Name check: `typeof name !== "string" || name.trim().length < 2 ||
name.trim().length > 50`. -/
def nameError (v : FieldValue) : Bool :=
  match v with
  | .str s => decide ((jsTrim s).length < 2) || decide ((jsTrim s).length > 50)
  | _ => true

/-- Email check: exactly one `@` (first and last occurrence coincide) and
some `.` strictly after it.  `atIndex === -1` is the `none` case; when the
first occurrence exists and the last does not the source's
`atIndex !== lastAtIndex` also fires, so both fall to the `true` arm. -/
def emailInvalid (v : FieldValue) : Bool :=
  match v with
  | .str s =>
    match indexOfChar s '@', lastIndexOfChar s '@' with
    | some atIndex, some lastAtIndex =>
      if atIndex ≠ lastAtIndex then true
      else !(indexOfCharFrom s '.' (atIndex + 1)).isSome
    | _, _ => true
  | _ => true

/-- Phone check: string of length 10, first character in `{6,7,8,9}`, then
a digit scan over all characters. -/
def phoneError (v : FieldValue) : Bool :=
  match v with
  | .str s =>
    if s.length ≠ 10 then true
    else
      match s with
      | [] => true
      | c :: _ =>
        if !(['6', '7', '8', '9'].contains c) then true
        else anyNonDigit s
  | _ => true

/-- Age check: a string is trimmed (empty rejected) then converted with
`Number`; a number is checked directly; anything else is an error.  The
converted value must be an integer in `[16,100]`. -/
def ageError (v : FieldValue) : Bool :=
  match v with
  | .str s =>
    if jsTrim s = [] then true
    else
      let parsed := strToNumber s
      jsIsNaN parsed || !jsIsInteger parsed ||
        jsNumLtQ parsed 16 || jsNumGtQ parsed 100
  | .num n => !jsIsInteger n || jsNumLtQ n 16 || jsNumGtQ n 100
  | _ => true

/-- Pincode check: string of length 6, not starting with `'0'`, then a
digit scan over all characters. -/
def pincodeError (v : FieldValue) : Bool :=
  match v with
  | .str s =>
    if s.length ≠ 6 ∨ s.head? = some '0' then true
    else anyNonDigit s
  | _ => true

/-- `formData?.state ?? ""`: `undefined` and `null` become the empty
string. -/
def effectiveState (v : FieldValue) : FieldValue :=
  match v with
  | .undefined => .str []
  | .null => .str []
  | v => v

/-- State check: the effective value must be a string with non-empty
trim. -/
def stateError (v : FieldValue) : Bool :=
  match effectiveState v with
  | .str s => decide (jsTrim s = [])
  | _ => true

/-- AgreeTerms check: `!Boolean(v)`. -/
def agreeTermsError (v : FieldValue) : Bool :=
  !jsTruthy v

/-! ## The validator -/

/-- The embedding of `validateForm`.  A non-record argument is rejected
outright; otherwise the seven field checks run independently and each
failure appends its fixed message, in source order. -/
def validateForm (formData : JSArg) : ValidationResult :=
  match formData with
  | .record f =>
    let errs : List (String × String) :=
      (if nameError f.name then [(("name"), ("Name must be 2-50 characters"))] else []) ++
      (if emailInvalid f.email then [(("email"), ("Invalid email format"))] else []) ++
      (if phoneError f.phone then [(("phone"), ("Invalid Indian phone number"))] else []) ++
      (if ageError f.age then [(("age"), ("Age must be an integer between 16 and 100"))] else []) ++
      (if pincodeError f.pincode then [(("pincode"), ("Invalid Indian pincode"))] else []) ++
      (if stateError f.state then [(("state"), ("State is required"))] else []) ++
      (if agreeTermsError f.agreeTerms then [(("agreeTerms"), ("Must agree to terms"))] else [])
    { isValid := errs.length == 0, errors := errs }
  | _ => { isValid := false, errors := [(("form"), ("Invalid form data"))] }

/-! ## Spec-side predicates

These state the per-field validity conditions in the words of the
specification, to be compared with the checks embedded from the source. -/

/-- Spec: name is a string whose trimmed length lies in `[2,50]`. -/
def nameValidSpec (v : FieldValue) : Prop :=
  ∃ s, v = .str s ∧ 2 ≤ (jsTrim s).length ∧ (jsTrim s).length ≤ 50

/-- Spec: email is a string with exactly one `'@'` and at least one `'.'`
strictly after it (the decomposition around the unique `'@'`). -/
def emailValidSpec (v : FieldValue) : Prop :=
  ∃ pre post, v = .str (pre ++ '@' :: post) ∧ '@' ∉ pre ∧ '@' ∉ post ∧
    '.' ∈ post

/-- Spec: phone is a string of exactly 10 ASCII digits whose first
character is one of `'6','7','8','9'`. -/
def phoneValidSpec (v : FieldValue) : Prop :=
  ∃ s, v = .str s ∧ s.length = 10 ∧ (∀ c ∈ s, isAsciiDigit c = true) ∧
    ∃ c rest, s = c :: rest ∧ (c = '6' ∨ c = '7' ∨ c = '8' ∨ c = '9')

/-- Spec: the number is a finite integer in `[16,100]`. -/
def numIsIntInRange (n : JSNumber) : Prop :=
  ∃ k : ℤ, n = .finite (k : ℚ) ∧ 16 ≤ k ∧ k ≤ 100

/-- Spec: age is a number, or a string converting under JS `Number` to a
number, that is a finite integer in `[16,100]`. -/
def ageValidSpec (v : FieldValue) : Prop :=
  (∃ n, v = .num n ∧ numIsIntInRange n) ∨
    (∃ s, v = .str s ∧ numIsIntInRange (strToNumber s))

/-- Spec: pincode is a string of exactly 6 ASCII digits not starting with
`'0'`. -/
def pincodeValidSpec (v : FieldValue) : Prop :=
  ∃ s, v = .str s ∧ s.length = 6 ∧ (∀ c ∈ s, isAsciiDigit c = true) ∧
    ∃ c rest, s = c :: rest ∧ c ≠ '0'

/-- Spec: the effective state value is a string with non-empty trim. -/
def stateValidSpec (v : FieldValue) : Prop :=
  ∃ s, effectiveState v = .str s ∧ jsTrim s ≠ []

/-- Spec: the standard JS falsy set `{0, "", null, undefined, NaN, false}`. -/
def specFalsy (v : FieldValue) : Prop :=
  v = .num (.finite 0) ∨ v = .str [] ∨ v = .null ∨ v = .undefined ∨
    v = .num .nan ∨ v = .bool false

/-! ## Helper lemmas -/

theorem anyNonDigit_eq_false {s : List Char} :
    anyNonDigit s = false ↔ ∀ c ∈ s, isAsciiDigit c = true := by
  induction s with
  | nil => simp [anyNonDigit]
  | cons c cs ih =>
    simp only [anyNonDigit, List.mem_cons, forall_eq_or_imp]
    by_cases h : c < '0' ∨ '9' < c
    · rw [if_pos h]
      constructor
      · intro hf; cases hf
      · rintro ⟨h1, -⟩
        rw [isAsciiDigit, decide_eq_true_eq] at h1
        rcases h with h | h
        · exact absurd h1.1 (not_le.mpr h)
        · exact absurd h1.2 (not_le.mpr h)
    · rw [if_neg h, ih]
      have hd : isAsciiDigit c = true := by
        rw [isAsciiDigit, decide_eq_true_eq]
        refine ⟨?_, ?_⟩
        · by_contra hc; exact h (Or.inl (not_le.mp hc))
        · by_contra hc; exact h (Or.inr (not_le.mp hc))
      simp [hd]

theorem nameError_eq_false {v : FieldValue} :
    nameError v = false ↔ nameValidSpec v := by
  cases v with
  | str s =>
    simp only [nameError, nameValidSpec, Bool.or_eq_false_iff,
      decide_eq_false_iff_not, not_lt, FieldValue.str.injEq]
    constructor
    · rintro ⟨h1, h2⟩
      exact ⟨s, rfl, h1, h2⟩
    · rintro ⟨s', hs, h1, h2⟩
      cases hs
      exact ⟨h1, h2⟩
  | undefined => simp [nameError, nameValidSpec]
  | null => simp [nameError, nameValidSpec]
  | bool b => simp [nameError, nameValidSpec]
  | num n => simp [nameError, nameValidSpec]
  | object => simp [nameError, nameValidSpec]
  | array => simp [nameError, nameValidSpec]

theorem stateError_eq_false {v : FieldValue} :
    stateError v = false ↔ stateValidSpec v := by
  cases v with
  | str s =>
    simp only [stateError, stateValidSpec, effectiveState,
      decide_eq_false_iff_not, FieldValue.str.injEq]
    constructor
    · intro h
      exact ⟨s, rfl, h⟩
    · rintro ⟨s', hs, h⟩
      cases hs
      exact h
  | undefined =>
    simp only [stateError, stateValidSpec, effectiveState, FieldValue.str.injEq]
    constructor
    · intro h
      rw [decide_eq_false_iff_not] at h
      exact absurd rfl h
    · rintro ⟨s', hs, h⟩
      cases hs
      exact absurd rfl h
  | null =>
    simp only [stateError, stateValidSpec, effectiveState, FieldValue.str.injEq]
    constructor
    · intro h
      rw [decide_eq_false_iff_not] at h
      exact absurd rfl h
    · rintro ⟨s', hs, h⟩
      cases hs
      exact absurd rfl h
  | bool b => simp [stateError, stateValidSpec, effectiveState]
  | num n => simp [stateError, stateValidSpec, effectiveState]
  | object => simp [stateError, stateValidSpec, effectiveState]
  | array => simp [stateError, stateValidSpec, effectiveState]

theorem agreeTermsError_eq_true {v : FieldValue} :
    agreeTermsError v = true ↔ specFalsy v := by
  cases v with
  | num n => cases n <;> simp [agreeTermsError, jsTruthy, specFalsy]
  | str s => simp [agreeTermsError, jsTruthy, specFalsy]
  | undefined => simp [agreeTermsError, jsTruthy, specFalsy]
  | null => simp [agreeTermsError, jsTruthy, specFalsy]
  | bool b => cases b <;> simp [agreeTermsError, jsTruthy, specFalsy]
  | object => simp [agreeTermsError, jsTruthy, specFalsy]
  | array => simp [agreeTermsError, jsTruthy, specFalsy]

theorem contains6789 {c : Char} :
    (['6', '7', '8', '9'].contains c = true) ↔
      (c = '6' ∨ c = '7' ∨ c = '8' ∨ c = '9') := by
  simp [List.contains, List.elem_iff]

theorem phoneError_eq_false {v : FieldValue} :
    phoneError v = false ↔ phoneValidSpec v := by
  cases v with
  | str s =>
    by_cases hl : s.length = 10
    · cases s with
      | nil => simp at hl
      | cons c cs =>
        by_cases hc : ['6', '7', '8', '9'].contains c = true
        · have he : phoneError (.str (c :: cs)) = anyNonDigit (c :: cs) := by
            simp only [phoneError]
            rw [if_neg (not_not_intro hl), hc]
            rfl
          rw [he, anyNonDigit_eq_false]
          constructor
          · intro hall
            exact ⟨c :: cs, rfl, hl, hall, c, cs, rfl, contains6789.mp hc⟩
          · rintro ⟨s', hs, -, hall, -⟩
            cases hs
            exact hall
        · have hcF : ['6', '7', '8', '9'].contains c = false := by
            simpa using hc
          have he : phoneError (.str (c :: cs)) = true := by
            simp only [phoneError]
            rw [if_neg (not_not_intro hl), hcF]
            rfl
          rw [he]
          constructor
          · intro h
            simp at h
          · rintro ⟨s', hs, -, -, c', rest', hcons, hdig⟩
            cases hs
            cases hcons
            exact (hc (contains6789.mpr hdig)).elim
    · have he : phoneError (.str s) = true := by
        simp only [phoneError]
        rw [if_pos hl]
      rw [he]
      constructor
      · intro h
        simp at h
      · rintro ⟨s', hs, hlen, -⟩
        cases hs
        exact (hl hlen).elim
  | undefined => simp [phoneError, phoneValidSpec]
  | null => simp [phoneError, phoneValidSpec]
  | bool b => simp [phoneError, phoneValidSpec]
  | num n => simp [phoneError, phoneValidSpec]
  | object => simp [phoneError, phoneValidSpec]
  | array => simp [phoneError, phoneValidSpec]

theorem pincodeError_eq_false {v : FieldValue} :
    pincodeError v = false ↔ pincodeValidSpec v := by
  cases v with
  | str s =>
    by_cases hcond : s.length ≠ 6 ∨ s.head? = some '0'
    · have he : pincodeError (.str s) = true := by
        simp only [pincodeError]
        rw [if_pos hcond]
      rw [he]
      constructor
      · intro h
        simp at h
      · rintro ⟨s', hs, hlen, -, c', rest', hcons, hc0⟩
        cases hs
        rcases hcond with h | h
        · exact (h hlen).elim
        · cases hcons
          simp only [List.head?] at h
          exact (hc0 (Option.some.inj h)).elim
    · have he : pincodeError (.str s) = anyNonDigit s := by
        simp only [pincodeError]
        rw [if_neg hcond]
      push_neg at hcond
      obtain ⟨hlen, hhead⟩ := hcond
      cases s with
      | nil => simp at hlen
      | cons c cs =>
        have hc0 : c ≠ '0' := by
          intro h
          exact hhead (by simp [List.head?, h])
        rw [he, anyNonDigit_eq_false]
        constructor
        · intro hall
          exact ⟨c :: cs, rfl, hlen, hall, c, cs, rfl, hc0⟩
        · rintro ⟨s', hs, -, hall, -⟩
          cases hs
          exact hall
  | undefined => simp [pincodeError, pincodeValidSpec]
  | null => simp [pincodeError, pincodeValidSpec]
  | bool b => simp [pincodeError, pincodeValidSpec]
  | num n => simp [pincodeError, pincodeValidSpec]
  | object => simp [pincodeError, pincodeValidSpec]
  | array => simp [pincodeError, pincodeValidSpec]

theorem numIsIntInRange_iff {n : JSNumber} :
    numIsIntInRange n ↔
      (jsIsInteger n = true ∧ jsNumLtQ n 16 = false ∧ jsNumGtQ n 100 = false) := by
  cases n with
  | nan => simp [numIsIntInRange, jsIsInteger]
  | posInf => simp [numIsIntInRange, jsIsInteger]
  | negInf => simp [numIsIntInRange, jsIsInteger, jsNumLtQ]
  | finite q =>
    simp only [numIsIntInRange, jsIsInteger, jsNumLtQ, jsNumGtQ,
      JSNumber.finite.injEq, beq_iff_eq, decide_eq_false_iff_not, not_lt]
    constructor
    · rintro ⟨k, rfl, h1, h2⟩
      refine ⟨Rat.den_intCast k, ?_, ?_⟩
      · exact_mod_cast h1
      · exact_mod_cast h2
    · rintro ⟨hden, h1, h2⟩
      refine ⟨q.num, (Rat.coe_int_num_of_den_eq_one hden).symm, ?_, ?_⟩
      · rw [← Rat.coe_int_num_of_den_eq_one hden] at h1
        exact_mod_cast h1
      · rw [← Rat.coe_int_num_of_den_eq_one hden] at h2
        exact_mod_cast h2

theorem ageError_eq_false {v : FieldValue} :
    ageError v = false ↔ ageValidSpec v := by
  cases v with
  | num n =>
    have hspec : ageValidSpec (.num n) ↔ numIsIntInRange n := by
      simp [ageValidSpec]
    rw [hspec, numIsIntInRange_iff]
    cases n with
    | nan => simp [ageError, jsIsInteger]
    | posInf => simp [ageError, jsIsInteger]
    | negInf => simp [ageError, jsIsInteger]
    | finite q =>
      simp only [ageError, jsIsInteger, jsNumLtQ, jsNumGtQ]
      cases hd : (q.den == 1) <;> cases hl : decide (q < 16) <;>
        cases hg : decide (100 < q) <;> simp
  | str s =>
    by_cases ht : jsTrim s = []
    · have hnum : strToNumber s = .finite 0 := by
        rw [strToNumber, ht]
        rfl
      have he : ageError (.str s) = true := by
        simp only [ageError]
        rw [if_pos ht]
      rw [he]
      constructor
      · intro h
        simp at h
      · rintro (⟨n', hn, -⟩ | ⟨s', hs, hrange⟩)
        · cases hn
        · cases hs
          rw [hnum] at hrange
          rcases hrange with ⟨k, hk, h1, h2⟩
          have hq : (0 : ℚ) = (k : ℚ) := JSNumber.finite.inj hk
          have hz : (0 : ℤ) = k := by exact_mod_cast hq
          omega
    · have he : ageError (.str s) =
          (jsIsNaN (strToNumber s) || !jsIsInteger (strToNumber s) ||
            jsNumLtQ (strToNumber s) 16 || jsNumGtQ (strToNumber s) 100) := by
        simp only [ageError]
        rw [if_neg ht]
      have hspec : ageValidSpec (.str s) ↔ numIsIntInRange (strToNumber s) := by
        simp [ageValidSpec]
      rw [he, hspec, numIsIntInRange_iff]
      cases hn : strToNumber s with
      | nan => simp [jsIsNaN, jsIsInteger]
      | posInf => simp [jsIsNaN, jsIsInteger]
      | negInf => simp [jsIsNaN, jsIsInteger, jsNumLtQ]
      | finite q =>
        simp only [jsIsNaN, jsIsInteger, jsNumLtQ, jsNumGtQ]
        cases hd : (q.den == 1) <;> cases hl : decide (q < 16) <;>
          cases hg : decide (100 < q) <;> simp
  | undefined => simp [ageError, ageValidSpec]
  | null => simp [ageError, ageValidSpec]
  | bool b => simp [ageError, ageValidSpec]
  | object => simp [ageError, ageValidSpec]
  | array => simp [ageError, ageValidSpec]

theorem indexOfChar_eq_none {s : List Char} {c : Char} :
    indexOfChar s c = none ↔ c ∉ s := by
  induction s with
  | nil => simp [indexOfChar]
  | cons x xs ih =>
    by_cases hx : x = c
    · subst hx
      simp [indexOfChar]
    · simp only [indexOfChar, if_neg hx, Option.map_eq_none', ih,
        List.mem_cons, not_or]
      constructor
      · intro h
        exact ⟨fun hc => hx hc.symm, h⟩
      · rintro ⟨-, h⟩
        exact h

theorem indexOfChar_append_cons {pre post : List Char} {c : Char}
    (h : c ∉ pre) :
    indexOfChar (pre ++ c :: post) c = some pre.length := by
  induction pre with
  | nil => simp [indexOfChar]
  | cons x xs ih =>
    have hx : x ≠ c := by
      rintro rfl
      exact h (by simp)
    have hxs : c ∉ xs := fun hm => h (List.mem_cons_of_mem _ hm)
    simp [indexOfChar, hx, ih hxs]

theorem indexOfChar_eq_some {s : List Char} {c : Char} {i : Nat}
    (h : indexOfChar s c = some i) :
    ∃ pre post, s = pre ++ c :: post ∧ pre.length = i ∧ c ∉ pre := by
  induction s generalizing i with
  | nil => simp [indexOfChar] at h
  | cons x xs ih =>
    by_cases hx : x = c
    · subst hx
      simp only [indexOfChar, if_pos rfl] at h
      have hi : (0 : Nat) = i := Option.some.inj h
      exact ⟨[], xs, rfl, hi, by simp⟩
    · simp only [indexOfChar, if_neg hx, Option.map_eq_some'] at h
      obtain ⟨j, hj, hji⟩ := h
      obtain ⟨pre, post, hs, hlen, hmem⟩ := ih hj
      refine ⟨x :: pre, post, ?_, ?_, ?_⟩
      · rw [hs]
        rfl
      · simp [hlen, hji]
      · intro hcmem
        rcases List.mem_cons.mp hcmem with rfl | hcm
        · exact hx rfl
        · exact hmem hcm

theorem lastIndexOfChar_eq_none {s : List Char} {c : Char} :
    lastIndexOfChar s c = none ↔ c ∉ s := by
  induction s with
  | nil => simp [lastIndexOfChar]
  | cons x xs ih =>
    simp only [lastIndexOfChar]
    cases hm : lastIndexOfChar xs c with
    | some j =>
      have hc : c ∈ xs := by
        by_contra hcn
        rw [ih.mpr hcn] at hm
        cases hm
      simp [hc]
    | none =>
      have hxs : c ∉ xs := ih.mp hm
      by_cases hx : x = c
      · subst hx
        simp
      · simp only [if_neg hx, List.mem_cons, not_or]
        exact ⟨fun _ => ⟨fun hc => hx hc.symm, hxs⟩, fun _ => by trivial⟩

theorem lastIndexOfChar_append_cons {pre post : List Char} {c : Char}
    (h : c ∉ post) :
    lastIndexOfChar (pre ++ c :: post) c = some pre.length := by
  induction pre with
  | nil =>
    simp only [List.nil_append, lastIndexOfChar]
    rw [lastIndexOfChar_eq_none.mpr h]
    simp
  | cons x xs ih =>
    simp only [List.cons_append, lastIndexOfChar, List.append_eq]
    rw [ih]
    simp

theorem lastIndexOfChar_eq_some {s : List Char} {c : Char} {i : Nat}
    (h : lastIndexOfChar s c = some i) :
    ∃ pre post, s = pre ++ c :: post ∧ pre.length = i ∧ c ∉ post := by
  induction s generalizing i with
  | nil => simp [lastIndexOfChar] at h
  | cons x xs ih =>
    simp only [lastIndexOfChar] at h
    cases hm : lastIndexOfChar xs c with
    | some j =>
      rw [hm] at h
      have hi : j + 1 = i := Option.some.inj h
      obtain ⟨pre, post, hs, hlen, hmem⟩ := ih hm
      refine ⟨x :: pre, post, ?_, ?_, hmem⟩
      · rw [hs]
        rfl
      · simp [hlen, hi]
    | none =>
      rw [hm] at h
      by_cases hx : x = c
      · rw [if_pos hx] at h
        have hi : (0 : Nat) = i := Option.some.inj h
        subst hx
        exact ⟨[], xs, rfl, hi, lastIndexOfChar_eq_none.mp hm⟩
      · rw [if_neg hx] at h
        cases h

theorem indexOfCharFrom_isSome {s : List Char} {c : Char} {k : Nat} :
    (indexOfCharFrom s c k).isSome = true ↔ c ∈ s.drop k := by
  rw [indexOfCharFrom]
  cases h : indexOfChar (s.drop k) c with
  | none => simp [indexOfChar_eq_none.mp h]
  | some j =>
    simp only [Option.map_some', Option.isSome_some, true_iff]
    obtain ⟨pre, post, hs, -, -⟩ := indexOfChar_eq_some h
    rw [hs]
    exact List.mem_append.mpr (Or.inr (by simp))

theorem emailInvalid_eq_false {v : FieldValue} :
    emailInvalid v = false ↔ emailValidSpec v := by
  cases v with
  | str s =>
    constructor
    · intro h
      cases hat : indexOfChar s '@' with
      | none =>
        simp only [emailInvalid, hat] at h
        exact Bool.noConfusion h
      | some i =>
        cases hlast : lastIndexOfChar s '@' with
        | none =>
          simp only [emailInvalid, hat, hlast] at h
          exact Bool.noConfusion h
        | some j =>
          simp only [emailInvalid, hat, hlast] at h
          by_cases hij : i ≠ j
          · rw [if_pos hij] at h
            cases h
          · rw [if_neg hij] at h
            push_neg at hij
            have hdot : (indexOfCharFrom s '.' (i + 1)).isSome = true := by
              cases hb : (indexOfCharFrom s '.' (i + 1)).isSome
              · rw [hb] at h
                cases h
              · rfl
            obtain ⟨pre, post, hs, hpl, hpre⟩ := indexOfChar_eq_some hat
            obtain ⟨pre', post', hs', hpl', hpost'⟩ :=
              lastIndexOfChar_eq_some hlast
            have hlen : pre.length = pre'.length := by rw [hpl, hpl', hij]
            obtain ⟨hpp, hcc⟩ := List.append_inj (hs.symm.trans hs') hlen
            injection hcc with hc1 hc2
            have hdrop : s.drop (i + 1) = post := by
              rw [hs, ← hpl, List.drop_append 1]
              rfl
            have hdotmem := indexOfCharFrom_isSome.mp hdot
            rw [hdrop] at hdotmem
            refine ⟨pre, post, by rw [hs], hpre, ?_, hdotmem⟩
            rw [hc2]
            exact hpost'
    · rintro ⟨pre, post, hs, hpre, hpost, hdot⟩
      cases hs
      simp only [emailInvalid, indexOfChar_append_cons hpre,
        lastIndexOfChar_append_cons hpost]
      rw [if_neg (show ¬pre.length ≠ pre.length from fun hne => hne rfl)]
      have hsome :
          (indexOfCharFrom (pre ++ '@' :: post) '.' (pre.length + 1)).isSome
            = true := by
        rw [indexOfCharFrom_isSome, List.drop_append 1]
        simpa using hdot
      rw [hsome]
      rfl
  | undefined => simp [emailInvalid, emailValidSpec]
  | null => simp [emailInvalid, emailValidSpec]
  | bool b => simp [emailInvalid, emailValidSpec]
  | num n => simp [emailInvalid, emailValidSpec]
  | object => simp [emailInvalid, emailValidSpec]
  | array => simp [emailInvalid, emailValidSpec]

/-! ## Membership in the errors list -/

theorem mem_iteSingleton {b : Bool} {x y : String × String} :
    (x ∈ if b then [y] else []) ↔ (b = true ∧ x = y) := by
  cases b <;> simp

/-- The errors list of a record input, block by block (definitional). -/
theorem validateForm_record_errors (f : FormData) :
    (validateForm (.record f)).errors =
      (if nameError f.name then [(("name"), ("Name must be 2-50 characters"))] else []) ++
      (if emailInvalid f.email then [(("email"), ("Invalid email format"))] else []) ++
      (if phoneError f.phone then [(("phone"), ("Invalid Indian phone number"))] else []) ++
      (if ageError f.age then [(("age"), ("Age must be an integer between 16 and 100"))] else []) ++
      (if pincodeError f.pincode then [(("pincode"), ("Invalid Indian pincode"))] else []) ++
      (if stateError f.state then [(("state"), ("State is required"))] else []) ++
      (if agreeTermsError f.agreeTerms then [(("agreeTerms"), ("Must agree to terms"))] else []) :=
  rfl

/-! ## The claims -/

/-- C1: for every input value whatsoever, `isValid === true` exactly when
the returned errors mapping has zero keys, and `isValid === false` exactly
when it has at least one key. -/
theorem validateForm_isValid_iff_no_errors (arg : JSArg) :
    ((validateForm arg).isValid = true ↔ (validateForm arg).errors = []) ∧
      ((validateForm arg).isValid = false ↔ (validateForm arg).errors ≠ []) := by
  have h : (validateForm arg).isValid = true ↔ (validateForm arg).errors = [] := by
    cases arg with
    | record f => simp [validateForm, List.length_eq_zero]
    | undefined => simp [validateForm]
    | null => simp [validateForm]
    | bool b => simp [validateForm]
    | num n => simp [validateForm]
    | str s => simp [validateForm]
    | array => simp [validateForm]
    | func => simp [validateForm]
  refine ⟨h, ?_⟩
  rw [← Bool.not_eq_true]
  exact not_congr h

/-- C2: every input that is not a record (not a non-null, non-array
object) yields exactly `{isValid: false, errors: {form: "Invalid form
data"}}`, with no per-field error keys. -/
theorem validateForm_nonrecord_form_error (arg : JSArg)
    (h : ∀ f : FormData, arg ≠ JSArg.record f) :
    validateForm arg =
      { isValid := false, errors := [(("form"), ("Invalid form data"))] } := by
  cases arg with
  | record f => exact absurd rfl (h f)
  | undefined => rfl
  | null => rfl
  | bool b => rfl
  | num n => rfl
  | str s => rfl
  | array => rfl
  | func => rfl

/-- Witness for C2: the claim applied at the concrete non-record input
`null`. -/
theorem validateForm_nonrecord_form_error_witness :
    validateForm JSArg.null =
      { isValid := false, errors := [(("form"), ("Invalid form data"))] } :=
  validateForm_nonrecord_form_error JSArg.null (fun _ h => JSArg.noConfusion h)

/-- C7: for every record input, the errors mapping contains the key
`name` with message "Name must be 2-50 characters" if and only if the
name field is not a string whose trimmed length lies in `[2,50]`. -/
theorem validateForm_name_error_iff (f : FormData) :
    ((("name"), ("Name must be 2-50 characters")) ∈
        (validateForm (.record f)).errors) ↔ ¬ nameValidSpec f.name := by
  have hmem : ((("name"), ("Name must be 2-50 characters")) ∈
      (validateForm (.record f)).errors) ↔ nameError f.name = true := by
    rw [validateForm_record_errors]
    simp only [List.mem_append, mem_iteSingleton, Prod.mk.injEq]
    simp
  rw [hmem, ← nameError_eq_false]
  cases nameError f.name <;> simp

/-- C4: for every record input, the errors mapping contains the key
`email` with message "Invalid email format" if and only if the email
field is not a string with exactly one `'@'` and at least one `'.'`
strictly after it. -/
theorem validateForm_email_error_iff (f : FormData) :
    ((("email"), ("Invalid email format")) ∈
        (validateForm (.record f)).errors) ↔ ¬ emailValidSpec f.email := by
  have hmem : ((("email"), ("Invalid email format")) ∈
      (validateForm (.record f)).errors) ↔ emailInvalid f.email = true := by
    rw [validateForm_record_errors]
    simp only [List.mem_append, mem_iteSingleton, Prod.mk.injEq]
    simp
  rw [hmem, ← emailInvalid_eq_false]
  cases emailInvalid f.email <;> simp

/-- C5: for every record input, the errors mapping contains the key
`phone` with message "Invalid Indian phone number" if and only if the
phone field is not a string of exactly 10 ASCII digits starting with
`'6'`, `'7'`, `'8'` or `'9'`. -/
theorem validateForm_phone_error_iff (f : FormData) :
    ((("phone"), ("Invalid Indian phone number")) ∈
        (validateForm (.record f)).errors) ↔ ¬ phoneValidSpec f.phone := by
  have hmem : ((("phone"), ("Invalid Indian phone number")) ∈
      (validateForm (.record f)).errors) ↔ phoneError f.phone = true := by
    rw [validateForm_record_errors]
    simp only [List.mem_append, mem_iteSingleton, Prod.mk.injEq]
    simp
  rw [hmem, ← phoneError_eq_false]
  cases phoneError f.phone <;> simp

/-- C3: for every record input, the errors mapping contains the key
`age` with message "Age must be an integer between 16 and 100" if and
only if the age field is not a number or numeric string converting to a
finite integer in `[16,100]`. -/
theorem validateForm_age_error_iff (f : FormData) :
    ((("age"), ("Age must be an integer between 16 and 100")) ∈
        (validateForm (.record f)).errors) ↔ ¬ ageValidSpec f.age := by
  have hmem : ((("age"), ("Age must be an integer between 16 and 100")) ∈
      (validateForm (.record f)).errors) ↔ ageError f.age = true := by
    rw [validateForm_record_errors]
    simp only [List.mem_append, mem_iteSingleton, Prod.mk.injEq]
    simp
  rw [hmem, ← ageError_eq_false]
  cases ageError f.age <;> simp

/-- C6: for every record input, the errors mapping contains the key
`pincode` with message "Invalid Indian pincode" if and only if the
pincode field is not a string of exactly 6 ASCII digits not starting
with `'0'`. -/
theorem validateForm_pincode_error_iff (f : FormData) :
    ((("pincode"), ("Invalid Indian pincode")) ∈
        (validateForm (.record f)).errors) ↔ ¬ pincodeValidSpec f.pincode := by
  have hmem : ((("pincode"), ("Invalid Indian pincode")) ∈
      (validateForm (.record f)).errors) ↔ pincodeError f.pincode = true := by
    rw [validateForm_record_errors]
    simp only [List.mem_append, mem_iteSingleton, Prod.mk.injEq]
    simp
  rw [hmem, ← pincodeError_eq_false]
  cases pincodeError f.pincode <;> simp

/-- C8: for every record input, the state field's effective value is the
field's value when present and non-null and the empty string otherwise,
and the errors mapping contains the key `state` with message "State is
required" if and only if this effective value is not a string whose
trimmed form is non-empty. -/
theorem validateForm_state_error_iff (f : FormData) :
    (effectiveState .undefined = .str [] ∧ effectiveState .null = .str [] ∧
      (∀ s, effectiveState (.str s) = .str s)) ∧
    (((("state"), ("State is required")) ∈
        (validateForm (.record f)).errors) ↔ ¬ stateValidSpec f.state) := by
  refine ⟨⟨rfl, rfl, fun s => rfl⟩, ?_⟩
  have hmem : ((("state"), ("State is required")) ∈
      (validateForm (.record f)).errors) ↔ stateError f.state = true := by
    rw [validateForm_record_errors]
    simp only [List.mem_append, mem_iteSingleton, Prod.mk.injEq]
    simp
  rw [hmem, ← stateError_eq_false]
  cases stateError f.state <;> simp

/-- C9: for every record input, the errors mapping contains the key
`agreeTerms` with message "Must agree to terms" if and only if the
agreeTerms field's value lies in the standard falsy set
`{0, "", null, undefined, NaN, false}`. -/
theorem validateForm_agreeTerms_error_iff (f : FormData) :
    ((("agreeTerms"), ("Must agree to terms")) ∈
        (validateForm (.record f)).errors) ↔ specFalsy f.agreeTerms := by
  have hmem : ((("agreeTerms"), ("Must agree to terms")) ∈
      (validateForm (.record f)).errors) ↔ agreeTermsError f.agreeTerms = true := by
    rw [validateForm_record_errors]
    simp only [List.mem_append, mem_iteSingleton, Prod.mk.injEq]
    simp
  rw [hmem, agreeTermsError_eq_true]

/-- A record whose age field is the string `" 22 "` and whose other
fields are absent. -/
def ageSpacedSample : FormData where
  name := .undefined
  email := .undefined
  phone := .undefined
  age := .str ((" 22 ").toList)
  pincode := .undefined
  state := .undefined
  agreeTerms := .undefined

/-- A record whose age field is the string `"22abc"` and whose other
fields are absent. -/
def ageGarbageSample : FormData where
  name := .undefined
  email := .undefined
  phone := .undefined
  age := .str (("22abc").toList)
  pincode := .undefined
  state := .undefined
  agreeTerms := .undefined

/-- C10: with the age field a string that is non-empty after trimming,
acceptance is a whole-string numeric parse: `" 22 "` (whitespace around a
valid integer numeral) is accepted, while `"22abc"` (numeric prefix plus
trailing garbage) is rejected with the age error. -/
theorem validateForm_age_whole_string_parse :
    ((("age"), ("Age must be an integer between 16 and 100")) ∉
        (validateForm (.record ageSpacedSample)).errors) ∧
    ((("age"), ("Age must be an integer between 16 and 100")) ∈
        (validateForm (.record ageGarbageSample)).errors) := by
  have hnum : strToNumber ((" 22 ").toList) =
      .finite ((decDigitsVal (('2') :: ('2') :: []) : ℚ) * qPow10 0) := rfl
  have hq : ((decDigitsVal (('2') :: ('2') :: []) : ℚ)) * qPow10 0 = 22 := by
    have hd : decDigitsVal (('2') :: ('2') :: []) = 22 := by decide
    have hpow : qPow10 0 = 1 := by
      show (10 : ℚ) ^ (0 : Nat) = 1
      norm_num
    rw [hd, hpow]
    norm_num
  have h22 : ageError (FieldValue.str ((" 22 ").toList)) = false := by
    rw [ageError_eq_false]
    right
    refine ⟨_, rfl, 22, ?_, by norm_num, by norm_num⟩
    rw [hnum, hq]
    norm_num
  have hnum2 : strToNumber (("22abc").toList) = .nan := rfl
  have hgarb : ageError (FieldValue.str (("22abc").toList)) = true := by
    cases hb : ageError (FieldValue.str (("22abc").toList)) with
    | true => rfl
    | false =>
      exfalso
      rcases ageError_eq_false.mp hb with ⟨n, hn, -⟩ | ⟨s, hs, hrange⟩
      · cases hn
      · cases hs
        rw [hnum2] at hrange
        rcases hrange with ⟨k, hk, -⟩
        cases hk
  constructor
  · have hmem1 : ((("age"), ("Age must be an integer between 16 and 100")) ∈
        (validateForm (.record ageSpacedSample)).errors) ↔
          ageError ageSpacedSample.age = true := by
      rw [validateForm_record_errors]
      simp only [List.mem_append, mem_iteSingleton, Prod.mk.injEq]
      simp
    rw [hmem1]
    have hfield : ageSpacedSample.age = FieldValue.str ((" 22 ").toList) := rfl
    rw [hfield, h22]
    simp
  · have hmem2 : ((("age"), ("Age must be an integer between 16 and 100")) ∈
        (validateForm (.record ageGarbageSample)).errors) ↔
          ageError ageGarbageSample.age = true := by
      rw [validateForm_record_errors]
      simp only [List.mem_append, mem_iteSingleton, Prod.mk.injEq]
      simp
    rw [hmem2]
    have hfield : ageGarbageSample.age = FieldValue.str (("22abc").toList) := rfl
    rw [hfield, hgarb]
